import Mathlib

/-!
Shallow embedding of `src/visu.py` (pointnet2_gray_scale), covering the two
pipelines of that file:

* the stats / coverage-estimator pass (accumulation loop over sampling draws,
  class-histogram normalizations, per-scene occurrence-likelihood and density
  exports), and
* the batch grid compositor (probe sizing, per-cell repositioning, composite
  accumulation) together with its non-grid per-scene export fallback.

Counts are modelled as `Nat`, coordinates and normalized densities as `ℚ`;
the unguarded numpy divisions are modelled over `NpFloat`, which makes the
`0/0 = nan` / `x/0 = ±inf` outcomes of floating-point division explicit.
-/

namespace Visu

/-- Maximum number of scenes exported (`MAX_EXPORT = 20`, visu.py line 69). -/
def MAX_EXPORT : Nat := 20

/-- Elementwise sum of two count vectors (numpy `+=` on equal-length arrays). -/
def addVec (a b : List Nat) : List Nat := List.zipWith (· + ·) a b

/-- One sampling draw as returned by `DATA.next_input(...)` (visu.py line 154):
scene index `f`, per-point selection mask, per-class label-count delta
(`input_label_hist`), and the seed index. -/
structure Draw where
  scene : Nat
  mask : List Nat
  classDelta : List Nat
  seed : Nat

/-- The accumulator state of the stats pass (visu.py lines 140-158):
per-scene selection counters `hist_list`, per-scene draw counters
`scene_counters`, per-scene seed lists `seeds_list`, and the global class
histogram `label_hist`. -/
structure StatsState where
  hist_list : List (List Nat)
  scene_counters : List Nat
  seeds_list : List (List Nat)
  label_hist : List Nat

/-- Replace the element at index `i` by `g` applied to it (the in-place numpy
updates `hist_list[f] += ...`, `scene_counters[f] += 1`,
`seeds_list[f].append(...)`). -/
def updateNth : List α → Nat → (α → α) → List α
  | [], _, _ => []
  | a :: as, 0, g => g a :: as
  | a :: as, n + 1, g => a :: updateNth as n g

/-- Initial accumulators (visu.py lines 143-148): one zero counter vector per
scene (length = that scene's point count), zero draw counters, empty seed
lists, and a zero global class histogram. -/
def initState (numClasses : Nat) (shapes : List Nat) : StatsState :=
  { hist_list := shapes.map (fun n => List.replicate n 0),
    scene_counters := List.replicate shapes.length 0,
    seeds_list := shapes.map (fun _ => []),
    label_hist := List.replicate numClasses 0 }

/-- One iteration of the accumulation loop (visu.py lines 154-158). -/
def statsStep (st : StatsState) (d : Draw) : StatsState :=
  { hist_list := updateNth st.hist_list d.scene (fun h => addVec h d.mask),
    scene_counters := updateNth st.scene_counters d.scene (fun c => c + 1),
    seeds_list := updateNth st.seeds_list d.scene (fun s => s ++ [d.seed]),
    label_hist := addVec st.label_hist d.classDelta }

/-- Run the accumulation over a list of draws. -/
def statsRun (st : StatsState) (draws : List Draw) : StatsState :=
  draws.foldl statsStep st

/-- The sequence of draws consumed by
`for i in range(STAT_INPUT_NB*len(filenames))` (visu.py line 151), where the
`i`-th iteration's call to `DATA.next_input` returns `oracle i`. -/
def drawsOf (S F : Nat) (oracle : Nat → Draw) : List Draw :=
  (List.range (S * F)).map oracle

/-- The accumulation loop itself (visu.py lines 151-158): `S * F` iterations,
one draw consumed per iteration. -/
def statsLoop (S F : Nat) (oracle : Nat → Draw) (st : StatsState) : StatsState :=
  (List.range (S * F)).foldl (fun acc i => statsStep acc (oracle i)) st

/-- Elementwise sum of a list of class-count vectors of length `C`. -/
def elemSum (C : Nat) (vs : List (List Nat)) : List Nat :=
  (List.range C).map (fun k => (vs.map (fun v => v.getD k 0)).sum)

theorem updateNth_length (l : List α) (i : Nat) (g : α → α) :
    (updateNth l i g).length = l.length := by
  induction l generalizing i with
  | nil => rfl
  | cons a as ih =>
    cases i with
    | zero => rfl
    | succ n => simp [updateNth, ih]

theorem updateNth_getD_self (l : List α) (i : Nat) (g : α → α) (d : α)
    (h : i < l.length) :
    (updateNth l i g).getD i d = g (l.getD i d) := by
  induction l generalizing i with
  | nil => simp at h
  | cons a as ih =>
    cases i with
    | zero => rfl
    | succ n => simpa [updateNth] using ih n (by simpa using h)

theorem updateNth_getD_ne (l : List α) (i j : Nat) (g : α → α) (d : α)
    (h : i ≠ j) :
    (updateNth l i g).getD j d = l.getD j d := by
  induction l generalizing i j with
  | nil => rfl
  | cons a as ih =>
    cases i with
    | zero =>
      cases j with
      | zero => exact absurd rfl h
      | succ m => rfl
    | succ n =>
      cases j with
      | zero => rfl
      | succ m => simpa [updateNth] using ih n m (fun hh => h (by simp [hh]))

theorem getD_zipWith (f : α → β → γ) (a : List α) (b : List β) (k : Nat)
    (da : α) (db : β) (dc : γ) (ha : k < a.length) (hb : k < b.length) :
    (List.zipWith f a b).getD k dc = f (a.getD k da) (b.getD k db) := by
  induction a generalizing b k with
  | nil => simp at ha
  | cons x xs ih =>
    cases b with
    | nil => simp at hb
    | cons y ys =>
      cases k with
      | zero => rfl
      | succ n =>
        simpa using ih ys n (by simpa using ha) (by simpa using hb)

theorem statsRun_label_hist (draws : List Draw) (st : StatsState) :
    (statsRun st draws).label_hist =
      draws.foldl (fun h d => addVec h d.classDelta) st.label_hist := by
  induction draws generalizing st with
  | nil => rfl
  | cons d ds ih => simpa [statsRun, statsStep] using ih (statsStep st d)

theorem foldl_addVec_length (C : Nat) :
    ∀ (vs : List (List Nat)) (a : List Nat), a.length = C →
      (∀ v ∈ vs, v.length = C) → (vs.foldl addVec a).length = C := by
  intro vs
  induction vs with
  | nil => intro a ha _; simpa using ha
  | cons v vs ih =>
    intro a ha hvs
    have hv : v.length = C := hvs v (by simp)
    have hlen : (addVec a v).length = C := by
      simp [addVec, List.length_zipWith, ha, hv]
    exact ih (addVec a v) hlen (fun w hw => hvs w (List.mem_cons_of_mem _ hw))

theorem foldl_addVec_getD (C k : Nat) (hk : k < C) :
    ∀ (vs : List (List Nat)) (a : List Nat), a.length = C →
      (∀ v ∈ vs, v.length = C) →
      (vs.foldl addVec a).getD k 0 =
        a.getD k 0 + (vs.map (fun v => v.getD k 0)).sum := by
  intro vs
  induction vs with
  | nil => intro a _ _; simp
  | cons v vs ih =>
    intro a ha hvs
    have hv : v.length = C := hvs v (by simp)
    have hlen : (addVec a v).length = C := by
      simp [addVec, List.length_zipWith, ha, hv]
    have hg : (addVec a v).getD k 0 = a.getD k 0 + v.getD k 0 :=
      getD_zipWith _ _ _ _ 0 0 0 (by omega) (by omega)
    have step := ih (addVec a v) hlen (fun w hw => hvs w (List.mem_cons_of_mem _ hw))
    calc ((v :: vs).foldl addVec a).getD k 0
        = (vs.foldl addVec (addVec a v)).getD k 0 := rfl
      _ = (addVec a v).getD k 0 + (vs.map (fun w => w.getD k 0)).sum := step
      _ = a.getD k 0 + ((v :: vs).map (fun w => w.getD k 0)).sum := by
          simp only [List.map_cons, List.sum_cons, hg]; ring

/-- C1: A run of the stats pass with `F` scenes and `S` target draws per scene
performs exactly `S * F` draws (the loop at visu.py line 151 consumes one
`next_input` result per iteration); after `N` draws the global class
histogram equals the elementwise sum of the `N` individual class-count
deltas; and every single draw adds its mask elementwise into the drawn
scene's selection counters, increments that scene's draw counter, and
appends its seed to that scene's seed list. -/
theorem stats_accumulation_correct (S F C : Nat) (shapes : List Nat)
    (oracle : Nat → Draw) (draws : List Draw)
    (hdraws : draws = drawsOf S F oracle)
    (hC : ∀ d ∈ draws, d.classDelta.length = C) :
    draws.length = S * F ∧
    statsLoop S F oracle (initState C shapes) = statsRun (initState C shapes) draws ∧
    (statsRun (initState C shapes) draws).label_hist =
      elemSum C (draws.map Draw.classDelta) ∧
    ∀ (st : StatsState) (d : Draw),
      d.scene < st.hist_list.length → d.scene < st.scene_counters.length →
      d.scene < st.seeds_list.length →
      (statsStep st d).hist_list.getD d.scene [] =
        addVec (st.hist_list.getD d.scene []) d.mask ∧
      (statsStep st d).scene_counters.getD d.scene 0 =
        st.scene_counters.getD d.scene 0 + 1 ∧
      (statsStep st d).seeds_list.getD d.scene [] =
        st.seeds_list.getD d.scene [] ++ [d.seed] := by
  subst hdraws
  refine ⟨by simp [drawsOf], ?_, ?_, ?_⟩
  · simp [statsLoop, statsRun, drawsOf, List.foldl_map]
  · rw [statsRun_label_hist]
    have hmem : ∀ v ∈ (drawsOf S F oracle).map Draw.classDelta, v.length = C := by
      intro v hv
      rcases List.mem_map.mp hv with ⟨d, hd, rfl⟩
      exact hC d hd
    have hfold : (drawsOf S F oracle).foldl (fun h d => addVec h d.classDelta)
        (initState C shapes).label_hist
        = ((drawsOf S F oracle).map Draw.classDelta).foldl addVec (List.replicate C 0) := by
      rw [List.foldl_map]; rfl
    rw [hfold]
    have hlen1 : (((drawsOf S F oracle).map Draw.classDelta).foldl addVec
        (List.replicate C 0)).length = C :=
      foldl_addVec_length C _ _ (by simp) hmem
    have hlen2 : (elemSum C ((drawsOf S F oracle).map Draw.classDelta)).length = C := by
      simp [elemSum]
    apply List.ext_getElem (by rw [hlen1, hlen2])
    intro k hk1 hk2
    have hkC : k < C := by rwa [hlen1] at hk1
    have hL := foldl_addVec_getD C k hkC ((drawsOf S F oracle).map Draw.classDelta)
      (List.replicate C 0) (by simp) hmem
    rw [List.getD_eq_getElem _ 0 hk1] at hL
    rw [hL]
    simp [elemSum, hkC]
  · intro st d h1 h2 h3
    refine ⟨?_, ?_, ?_⟩
    · exact updateNth_getD_self _ _ _ _ h1
    · exact updateNth_getD_self _ _ _ _ h2
    · exact updateNth_getD_self _ _ _ _ h3

/-- Witness for C1 at a concrete run: two scenes of two points each, one draw
per scene. -/
theorem stats_accumulation_correct_witness :
    (drawsOf 1 2 (fun i => ⟨i % 2, [1, 0], [1], i⟩)).length = 1 * 2 ∧
    (statsRun (initState 1 [2, 2]) (drawsOf 1 2 (fun i => ⟨i % 2, [1, 0], [1], i⟩))).label_hist
      = elemSum 1 ((drawsOf 1 2 (fun i => ⟨i % 2, [1, 0], [1], i⟩)).map Draw.classDelta) :=
  ⟨(stats_accumulation_correct 1 2 1 [2, 2] (fun i => ⟨i % 2, [1, 0], [1], i⟩) _
      rfl (by decide)).1,
   (stats_accumulation_correct 1 2 1 [2, 2] (fun i => ⟨i % 2, [1, 0], [1], i⟩) _
      rfl (by decide)).2.2.1⟩

/-- Numpy floating-point values arising from the normalizations: rationals
plus the non-finite outcomes of dividing by zero. -/
inductive NpFloat where
  | nan : NpFloat
  | inf : NpFloat
  | ninf : NpFloat
  | val : ℚ → NpFloat
deriving DecidableEq

/-- Numpy division of two finite floats: `0/0 = nan`, `x/0 = ±inf`,
ordinary division otherwise. -/
def npDivQ (a b : ℚ) : NpFloat :=
  if b = 0 then (if a = 0 then .nan else if 0 < a then .inf else .ninf)
  else .val (a / b)

/-- The unguarded histogram normalization `label_hist/np.sum(label_hist)`
(visu.py lines 128 and 161-162), performed unconditionally on the decimated
class histogram and on the accumulated sampled-input class histogram. -/
def npNormalize (h : List Nat) : List NpFloat :=
  h.map (fun c : Nat => npDivQ (c : ℚ) ((h.sum : Nat) : ℚ))

/-- The guarded per-scene occurrence-likelihood values
`100*hist_list[f]/scene_counters[f]` (visu.py lines 178-184): scenes with a
zero draw counter are skipped by `continue`, so the division only happens
with a nonzero denominator. -/
def occurrenceDensity (hist : List Nat) (counter : Nat) : Option (List ℚ) :=
  if counter = 0 then none
  else some (hist.map (fun c : Nat => (100 * (c : ℚ)) / ((counter : Nat) : ℚ)))

/-- The guarded per-scene export density `hist_list[f]/np.sum(hist_list[f])`
(visu.py lines 198-200): scenes whose selection counters sum to zero are
skipped by `continue`, so the division only happens with a nonzero
denominator. -/
def exportDensity (hist : List Nat) : Option (List ℚ) :=
  if hist.sum = 0 then none
  else some (hist.map (fun c : Nat => (c : ℚ) / ((hist.sum : Nat) : ℚ)))

/-- The per-scene density exports produced by the loop at visu.py lines
197-206: only the first `min(F, MAX_EXPORT)` scenes are considered
(`filenamesForExport`, line 176), and a scene produces a file only when its
export density is defined. -/
def densityExports (histList : List (List Nat)) : List (Nat × List ℚ) :=
  (List.range (min histList.length MAX_EXPORT)).filterMap (fun f =>
    (exportDensity (histList.getD f [])).map (fun d => (f, d)))

/-- The per-scene occurrence-likelihood data produced by the loop at visu.py
lines 177-191, with the same `min(F, MAX_EXPORT)` cap. -/
def occurrenceExports (histList : List (List Nat)) (counters : List Nat) :
    List (Nat × List ℚ) :=
  (List.range (min histList.length MAX_EXPORT)).filterMap (fun f =>
    (occurrenceDensity (histList.getD f []) (counters.getD f 0)).map (fun d => (f, d)))

/-- Smallest element of a nonempty rational list (0 for the empty list). -/
def listMin : List ℚ → ℚ
  | [] => 0
  | x :: xs => xs.foldl min x

/-- Largest element of a nonempty rational list (0 for the empty list). -/
def listMax : List ℚ → ℚ
  | [] => 0
  | x :: xs => xs.foldl max x

/-- Index of the equal-width bin a value falls into, out of `n` bins spanning
`[lo, hi]` with the last bin right-closed (`np.histogram` semantics, which
`plt.hist` delegates to). -/
def binIdx (lo hi : ℚ) (n : Nat) (x : ℚ) : Nat :=
  if hi ≤ lo then 0 else min (n - 1) (Int.toNat ⌊(x - lo) / (hi - lo) * (n : ℚ)⌋)

/-- The bin counts of `plt.hist(density, bins=n)` (visu.py line 185). -/
def npHistogram (xs : List ℚ) (n : Nat) : List Nat :=
  (List.range n).map (fun i =>
    (xs.filter (fun x => binIdx (listMin xs) (listMax xs) n x == i)).length)

theorem statsRun_counters_length (draws : List Draw) (st : StatsState) :
    (statsRun st draws).scene_counters.length = st.scene_counters.length := by
  induction draws generalizing st with
  | nil => rfl
  | cons d ds ih =>
    rw [show statsRun st (d :: ds) = statsRun (statsStep st d) ds from rfl,
      ih (statsStep st d)]
    simp [statsStep, updateNth_length]

theorem statsRun_counters_getD (draws : List Draw) (st : StatsState) (f : Nat)
    (hf : f < st.scene_counters.length) :
    (statsRun st draws).scene_counters.getD f 0 =
      st.scene_counters.getD f 0 + draws.countP (fun d => d.scene == f) := by
  induction draws generalizing st with
  | nil => simp [statsRun]
  | cons d ds ih =>
    have hf' : f < (statsStep st d).scene_counters.length := by
      simpa [statsStep, updateNth_length] using hf
    have h2 := ih (statsStep st d) hf'
    rw [show statsRun st (d :: ds) = statsRun (statsStep st d) ds from rfl, h2]
    by_cases hd : d.scene = f
    · have hself : (statsStep st d).scene_counters.getD f 0 =
          st.scene_counters.getD f 0 + 1 := by
        subst hd; exact updateNth_getD_self _ _ _ _ hf
      rw [hself]
      simp [List.countP_cons, hd]
      ring
    · have hne : (statsStep st d).scene_counters.getD f 0 =
          st.scene_counters.getD f 0 :=
        updateNth_getD_ne _ _ _ _ _ hd
      rw [hne]
      simp [List.countP_cons, hd]

theorem statsRun_hist_untouched (draws : List Draw) (st : StatsState) (f : Nat)
    (h : ∀ d ∈ draws, d.scene ≠ f) :
    (statsRun st draws).hist_list.getD f [] = st.hist_list.getD f [] := by
  induction draws generalizing st with
  | nil => rfl
  | cons d ds ih =>
    rw [show statsRun st (d :: ds) = statsRun (statsStep st d) ds from rfl,
      ih (statsStep st d) (fun x hx => h x (List.mem_cons_of_mem _ hx))]
    exact updateNth_getD_ne _ _ _ _ _ (h d (by simp))

theorem getD_map_self (l : List α) (g : α → β) (k : Nat) (d : α) :
    (l.map g).getD k (g d) = g (l.getD k d) := by
  induction l generalizing k with
  | nil => rfl
  | cons a as ih =>
    cases k with
    | zero => rfl
    | succ n => exact ih n

theorem exportDensity_map_sum_one (hist : List Nat) (h : hist.sum ≠ 0) :
    (hist.map (fun c : Nat => (c : ℚ) / ((hist.sum : Nat) : ℚ))).sum = 1 := by
  have hS : (((hist.sum : Nat) : ℚ)) ≠ 0 := by exact_mod_cast h
  have hfun : (fun c : Nat => (c : ℚ) / ((hist.sum : Nat) : ℚ)) =
      fun c : Nat => (c : ℚ) * (((hist.sum : Nat) : ℚ))⁻¹ := by
    funext c; rw [div_eq_mul_inv]
  rw [hfun, List.sum_map_mul_right]
  rw [← Nat.cast_list_sum]
  exact mul_inv_cancel₀ hS

theorem exportDensity_eq_some (hist : List Nat) (d : List ℚ)
    (h : exportDensity hist = some d) :
    hist.sum ≠ 0 ∧
      d = hist.map (fun c : Nat => (c : ℚ) / ((hist.sum : Nat) : ℚ)) := by
  by_cases hs : hist.sum = 0
  · simp only [exportDensity] at h
    rw [if_pos hs] at h
    exact Option.noConfusion h
  · refine ⟨hs, ?_⟩
    simp only [exportDensity] at h
    rw [if_neg hs] at h
    exact (Option.some.inj h).symm

theorem occurrenceDensity_eq_some (hist : List Nat) (counter : Nat) (d : List ℚ)
    (h : occurrenceDensity hist counter = some d) :
    counter ≠ 0 ∧
      d = hist.map (fun c : Nat => (100 * (c : ℚ)) / ((counter : Nat) : ℚ)) := by
  by_cases hc : counter = 0
  · simp only [occurrenceDensity] at h
    rw [if_pos hc] at h
    exact Option.noConfusion h
  · refine ⟨hc, ?_⟩
    simp only [occurrenceDensity] at h
    rw [if_neg hc] at h
    exact (Option.some.inj h).symm

/-- C2: every export produced by the density-export loop (visu.py lines
197-206) belongs to one of the first `min(F, 20)` scenes, carries the density
`selectionCount[p] / sum(selectionCount)`, and that density column sums
exactly to 1 over the scene's points; conversely each of the first
`min(F, 20)` scenes with nonzero total selection is exported, and a scene
whose selection counters sum to zero never produces an export. -/
theorem export_density_normalized (histList : List (List Nat)) :
    (∀ f d, (f, d) ∈ densityExports histList →
      f < min histList.length MAX_EXPORT ∧
      (histList.getD f []).sum ≠ 0 ∧
      d = (histList.getD f []).map
        (fun c : Nat => (c : ℚ) / (((histList.getD f []).sum : Nat) : ℚ)) ∧
      d.sum = 1) ∧
    (∀ f, f < min histList.length MAX_EXPORT → (histList.getD f []).sum ≠ 0 →
      (f, (histList.getD f []).map
        (fun c : Nat => (c : ℚ) / (((histList.getD f []).sum : Nat) : ℚ)))
        ∈ densityExports histList) ∧
    (∀ f d, (histList.getD f []).sum = 0 → (f, d) ∉ densityExports histList) := by
  refine ⟨?_, ?_, ?_⟩
  · intro f d hmem
    rcases List.mem_filterMap.mp hmem with ⟨a, ha, hga⟩
    rcases Option.map_eq_some'.mp hga with ⟨d', hd', heq⟩
    have h1 : a = f := congrArg Prod.fst heq
    have h2 : d' = d := congrArg Prod.snd heq
    subst h1
    subst h2
    rcases exportDensity_eq_some _ _ hd' with ⟨hs, hval⟩
    subst hval
    exact ⟨List.mem_range.mp ha, hs, rfl, exportDensity_map_sum_one _ hs⟩
  · intro f hf hs
    refine List.mem_filterMap.mpr ⟨f, List.mem_range.mpr hf, ?_⟩
    simp only [exportDensity]
    rw [if_neg hs]
    rfl
  · intro f d h0 hmem
    rcases List.mem_filterMap.mp hmem with ⟨a, ha, hga⟩
    rcases Option.map_eq_some'.mp hga with ⟨d', hd', heq⟩
    have h1 : a = f := congrArg Prod.fst heq
    subst h1
    simp only [exportDensity] at hd'
    rw [if_pos h0] at hd'
    exact Option.noConfusion hd'

/-- Witness for C2 at a concrete accumulator: two scenes, the first with
counters `[1, 1]` (exported, density `[1/2, 1/2]`, summing to 1), the second
with counters `[0]` (total zero, not exported). -/
theorem export_density_normalized_witness :
    (0, [(1 : ℚ)/2, 1/2]) ∈ densityExports [[1, 1], [0]] ∧
    ([(1 : ℚ)/2, 1/2]).sum = 1 ∧
    (1, [(0 : ℚ)]) ∉ densityExports [[1, 1], [0]] := by
  have heval : (([[1, 1], [0]] : List (List Nat)).getD 0 []).map
      (fun c : Nat => (c : ℚ) / (((([[1, 1], [0]] : List (List Nat)).getD 0 []).sum : Nat) : ℚ)) =
      [(1 : ℚ)/2, 1/2] := by norm_num
  have hmem := (export_density_normalized [[1, 1], [0]]).2.1 0 (by decide) (by decide)
  rw [heval] at hmem
  refine ⟨hmem, ?_, (export_density_normalized [[1, 1], [0]]).2.2 1 [(0 : ℚ)] (by decide)⟩
  have hsum := ((export_density_normalized [[1, 1], [0]]).1 0 _ hmem).2.2.2
  exact hsum

/-- C3 counterexample: one scene of two points, one draw selecting both
points. The scene's draw counter is `1 > 0`, yet the exported density is
`[1/2, 1/2]` (counters divided by their sum, visu.py line 200), not the
claim's `selectionCount[p] / drawCount = [1, 1]`. -/
theorem export_density_not_per_draw_cex :
    (statsRun (initState 1 [2]) [⟨0, [1, 1], [2], 0⟩]).scene_counters.getD 0 0 = 1 ∧
    (statsRun (initState 1 [2]) [⟨0, [1, 1], [2], 0⟩]).hist_list.getD 0 [] = [1, 1] ∧
    exportDensity [1, 1] = some [(1 : ℚ)/2, 1/2] ∧
    ([1, 1] : List Nat).map (fun c : Nat => (c : ℚ) / ((1 : Nat) : ℚ)) = [1, 1] ∧
    ¬ ([(1 : ℚ)/2, 1/2] = [(1 : ℚ), 1]) := by
  refine ⟨by decide, by decide, ?_, by norm_num, by norm_num⟩
  have hl : ([1, 1] : List Nat).map
      (fun c : Nat => (c : ℚ) / ((([1, 1] : List Nat).sum : Nat) : ℚ)) =
      [(1 : ℚ)/2, 1/2] := by norm_num
  simp only [exportDensity]
  rw [if_neg (by decide : ¬([1, 1] : List Nat).sum = 0), hl]

/-- C3 (amended): at export time the per-scene density is
`selectionCount[p] / sum(selectionCount)` whenever the total selection count
is nonzero, and every scene whose total selection count is zero — in
particular every scene with a zero draw counter — is skipped entirely (no
divide-by-zero occurs). The `selectionCount[p] / drawCount` normalization
belongs to the occurrence-likelihood histogram, not to the export. -/
theorem export_density_amended (C : Nat) (shapes : List Nat) (draws : List Draw)
    (f : Nat) (hf : f < shapes.length)
    (h0 : (statsRun (initState C shapes) draws).scene_counters.getD f 0 = 0) :
    exportDensity ((statsRun (initState C shapes) draws).hist_list.getD f []) = none ∧
    ∀ hist : List Nat, hist.sum ≠ 0 →
      exportDensity hist =
        some (hist.map (fun c : Nat => (c : ℚ) / ((hist.sum : Nat) : ℚ))) := by
  constructor
  · have hlen : f < (initState C shapes).scene_counters.length := by
      simpa [initState] using hf
    have hcnt := statsRun_counters_getD draws (initState C shapes) f hlen
    rw [h0] at hcnt
    have hinit : (initState C shapes).scene_counters.getD f 0 = 0 := by
      simp [initState]
    rw [hinit] at hcnt
    have hcount : draws.countP (fun d => d.scene == f) = 0 := by omega
    have hnone : ∀ d ∈ draws, d.scene ≠ f := by
      intro d hd hcontra
      have := List.countP_eq_zero.mp hcount d hd
      simp [hcontra] at this
    rw [statsRun_hist_untouched draws (initState C shapes) f hnone]
    have hgd : (initState C shapes).hist_list.getD f [] =
        List.replicate (shapes.getD f 0) 0 := by
      have h := getD_map_self shapes (fun n => List.replicate n 0) f 0
      simpa [initState] using h
    rw [hgd]
    simp [exportDensity, List.sum_replicate]
  · intro hist hsum
    simp [exportDensity, hsum]

/-- Witness for C3's amended statement: a run with one never-drawn scene is
skipped, and a nonzero-total scene gets the sum-normalized density. -/
theorem export_density_amended_witness :
    exportDensity ((statsRun (initState 1 [2]) []).hist_list.getD 0 []) = none ∧
    exportDensity [1, 1] = some [(1 : ℚ)/2, 1/2] := by
  refine ⟨(export_density_amended 1 [2] [] 0 (by decide) (by decide)).1, ?_⟩
  have h := (export_density_amended 1 [2] [] 0 (by decide) (by decide)).2 [1, 1]
    (by decide)
  have hl : ([1, 1] : List Nat).map
      (fun c : Nat => (c : ℚ) / ((([1, 1] : List Nat).sum : Nat) : ℚ)) =
      [(1 : ℚ)/2, 1/2] := by norm_num
  rw [h, hl]

/-- C4 counterexample: with zero scenes the accumulation loop performs
`S * 0 = 0` draws, the accumulated class histogram stays all-zero, and the
unconditional sampled-input normalization (visu.py lines 161-162) divides
zero by zero, producing NaN. -/
theorem normalization_nan_cex :
    NpFloat.nan ∈ npNormalize
      ((statsLoop 5 0 (fun _ => ⟨0, [], [], 0⟩) (initState 3 [])).label_hist) := by
  decide

/-- C4 (amended): the per-scene occurrence-likelihood and export-density
normalizations are guarded — they return no value exactly when their
denominator (draw counter resp. selection total) is zero, so they never
divide by zero; but the decimated-class and sampled-input class
normalizations (visu.py lines 128 and 162) are unguarded and produce NaN
whenever the class histogram is nonempty and all-zero (e.g. a run with zero
scenes). -/
theorem normalization_guards_amended :
    (∀ (hist : List Nat) (counter : Nat),
      occurrenceDensity hist counter = none ↔ counter = 0) ∧
    (∀ hist : List Nat, exportDensity hist = none ↔ hist.sum = 0) ∧
    (∀ h : List Nat, h ≠ [] → h.sum = 0 → NpFloat.nan ∈ npNormalize h) := by
  refine ⟨?_, ?_, ?_⟩
  · intro hist counter
    by_cases h : counter = 0 <;> simp [occurrenceDensity, h]
  · intro hist
    by_cases h : hist.sum = 0 <;> simp [exportDensity, h]
  · intro h hne hsum
    match h, hne with
    | a :: as, _ =>
      have ha : a = 0 := by
        rw [List.sum_cons] at hsum
        omega
      refine List.mem_map.mpr ⟨a, List.mem_cons_self a as, ?_⟩
      show npDivQ (a : ℚ) (((a :: as).sum : Nat) : ℚ) = NpFloat.nan
      rw [hsum, ha]
      simp [npDivQ]

/-- Witness for C4's amended statement at concrete inputs. -/
theorem normalization_guards_amended_witness :
    occurrenceDensity [3] 0 = none ∧ exportDensity [0, 0] = none ∧
    NpFloat.nan ∈ npNormalize [0, 0] :=
  ⟨(normalization_guards_amended.1 [3] 0).mpr rfl,
   (normalization_guards_amended.2.1 [0, 0]).mpr (by decide),
   normalization_guards_amended.2.2 [0, 0] (by decide) (by decide)⟩

/-- C5: every scene processed by the occurrence-likelihood loop (visu.py
lines 176-191) is among the first `min(F, 20)` scenes, has a nonzero draw
counter, and its per-point value is `100 * selectionCount[p] / drawCount`,
binned into exactly 20 bins; conversely every such scene is processed, and
scenes with a zero draw counter are skipped. -/
theorem occurrence_likelihood_correct (histList : List (List Nat))
    (counters : List Nat) :
    (∀ f d, (f, d) ∈ occurrenceExports histList counters →
      f < min histList.length MAX_EXPORT ∧
      counters.getD f 0 ≠ 0 ∧
      d = (histList.getD f []).map
        (fun c : Nat => (100 * (c : ℚ)) / ((counters.getD f 0 : Nat) : ℚ)) ∧
      (npHistogram d 20).length = 20) ∧
    (∀ f, f < min histList.length MAX_EXPORT → counters.getD f 0 ≠ 0 →
      (f, (histList.getD f []).map
        (fun c : Nat => (100 * (c : ℚ)) / ((counters.getD f 0 : Nat) : ℚ)))
        ∈ occurrenceExports histList counters) ∧
    (∀ f d, counters.getD f 0 = 0 →
      (f, d) ∉ occurrenceExports histList counters) := by
  refine ⟨?_, ?_, ?_⟩
  · intro f d hmem
    rcases List.mem_filterMap.mp hmem with ⟨a, ha, hga⟩
    rcases Option.map_eq_some'.mp hga with ⟨d', hd', heq⟩
    have h1 : a = f := congrArg Prod.fst heq
    have h2 : d' = d := congrArg Prod.snd heq
    subst h1
    subst h2
    rcases occurrenceDensity_eq_some _ _ _ hd' with ⟨hc, hval⟩
    subst hval
    exact ⟨List.mem_range.mp ha, hc, rfl, by simp [npHistogram]⟩
  · intro f hf hc
    refine List.mem_filterMap.mpr ⟨f, List.mem_range.mpr hf, ?_⟩
    simp only [occurrenceDensity]
    rw [if_neg hc]
    rfl
  · intro f d h0 hmem
    rcases List.mem_filterMap.mp hmem with ⟨a, ha, hga⟩
    rcases Option.map_eq_some'.mp hga with ⟨d', hd', heq⟩
    have h1 : a = f := congrArg Prod.fst heq
    subst h1
    simp only [occurrenceDensity] at hd'
    rw [if_pos h0] at hd'
    exact Option.noConfusion hd'

/-- Witness for C5: one scene with counters `[1, 2]` and 4 draws yields
occurrence likelihoods `[25%, 50%]`; with a zero draw counter it is skipped. -/
theorem occurrence_likelihood_correct_witness :
    (0, [(25 : ℚ), 50]) ∈ occurrenceExports [[1, 2]] [4] ∧
    (npHistogram [(25 : ℚ), 50] 20).length = 20 ∧
    (0, [(25 : ℚ), 50]) ∉ occurrenceExports [[1, 2]] [0] := by
  have he : (([[1, 2]] : List (List Nat)).getD 0 []).map
      (fun c : Nat => (100 * (c : ℚ)) / ((([4] : List Nat).getD 0 0 : Nat) : ℚ)) =
      [(25 : ℚ), 50] := by norm_num
  have h := (occurrence_likelihood_correct [[1, 2]] [4]).2.1 0 (by decide) (by decide)
  rw [he] at h
  refine ⟨h, ?_, (occurrence_likelihood_correct [[1, 2]] [0]).2.2 0 [(25 : ℚ), 50] rfl⟩
  exact ((occurrence_likelihood_correct [[1, 2]] [4]).1 0 [(25 : ℚ), 50] h).2.2.2

/-! ### Batch grid compositor (visu.py lines 210-266) -/

/-- Rowwise addition (`scene + np.array([...])` broadcasts over rows). -/
def vadd (a b : List ℚ) : List ℚ := List.zipWith (· + ·) a b

/-- Rowwise subtraction. -/
def vsub (a b : List ℚ) : List ℚ := List.zipWith (· - ·) a b

/-- Rowwise elementwise product. -/
def vmul (a b : List ℚ) : List ℚ := List.zipWith (· * ·) a b

/-- Columnwise minimum of a point array (`np.min(scene, axis=0)`). -/
def npMinAxis0 : List (List ℚ) → List ℚ
  | [] => []
  | r :: rs => rs.foldl (List.zipWith min) r

/-- Columnwise maximum of a point array (`np.max(scene, axis=0)`). -/
def npMaxAxis0 : List (List ℚ) → List ℚ
  | [] => []
  | r :: rs => rs.foldl (List.zipWith max) r

/-- The fixed separation margin added to both grid cell sizes (the literal
`15` in visu.py lines 224-225). -/
def GRID_MARGIN : ℚ := 15

/-- The probe sizing (visu.py lines 219-225): the probe batch's first scene is
reduced to its first three coordinate columns (`data[0,:,0:3]`), its
axis-aligned bounds over the first two axes are measured, and the cell sizes
are `xsize = xmax - xmin + 15`, `ysize = ymax - ymin + 15`. -/
def probeSizes (batch : List (List (List ℚ))) : ℚ × ℚ :=
  ((npMaxAxis0 ((batch.getD 0 []).map (fun r => r.take 3))).getD 0 0 -
      (npMinAxis0 ((batch.getD 0 []).map (fun r => r.take 3))).getD 0 0 + GRID_MARGIN,
   (npMaxAxis0 ((batch.getD 0 []).map (fun r => r.take 3))).getD 1 0 -
      (npMinAxis0 ((batch.getD 0 []).map (fun r => r.take 3))).getD 1 0 + GRID_MARGIN)

/-- The translation added to a scene placed at grid cell `(i, j)`
(`np.array([x, y, z])` resp. `np.array([x, y, z, 0, 0, 0])`, visu.py lines
240-246, with `x = j*xsize`, `y = i*ysize`, `z = 0`). -/
def cellShift (useColor : Bool) (x y z : ℚ) : List ℚ :=
  if useColor then [x, y, z, 0, 0, 0] else [x, y, z]

/-- The mask multiplying the columnwise minimum before subtraction
(`np.array([1, 1, 1, 0, 0, 0])` in the color branch; the no-color branch
subtracts the whole minimum, i.e. mask `[1, 1, 1]`). -/
def spatialMask (useColor : Bool) : List ℚ :=
  if useColor then [1, 1, 1, 0, 0, 0] else [1, 1, 1]

/-- Repositioning of scene `j` of batch `i` (visu.py lines 239-246):
`scene + cellShift - np.min(scene, axis=0) * spatialMask`. -/
def repositionScene (useColor : Bool) (xsize ysize : ℚ) (i j : Nat)
    (scene : List (List ℚ)) : List (List ℚ) :=
  scene.map (fun r =>
    vsub (vadd r (cellShift useColor ((j : ℚ) * xsize) ((i : ℚ) * ysize) 0))
      (vmul (npMinAxis0 scene) (spatialMask useColor)))

/-- One sampled batch: `data` (scenes) and `label_data` (per-scene labels) as
returned by `DATA.next_batch` (visu.py line 234). -/
structure Batch where
  scenes : List (List (List ℚ))
  labels : List (List Nat)

/-- The composite accumulator (`visu_cloud`, `visu_labels`). -/
structure VisuState where
  cloud : List (List ℚ)
  labels : List Nat

/-- The initialization row `np.array([0,0,0])` / `np.array([0,0,0,0,0,0])`
(visu.py lines 227-230). -/
def zeroRow (useColor : Bool) : List ℚ :=
  if useColor then [0, 0, 0, 0, 0, 0] else [0, 0, 0]

/-- Initial composite state (visu.py lines 226-231): one zero row, one zero
label. -/
def initVisu (useColor : Bool) : VisuState :=
  { cloud := [zeroRow useColor], labels := [0] }

/-- All scenes of one batch positioned on grid row `i` (`positioned_data` and
`np.vstack`, visu.py lines 238-247). -/
def positionedBatch (useColor : Bool) (xsize ysize : ℚ) (i : Nat)
    (scenes : List (List (List ℚ))) : List (List ℚ) :=
  ((List.range scenes.length).map (fun j =>
    repositionScene useColor xsize ysize i j (scenes.getD j []))).flatten

/-- One iteration of the grid main loop (visu.py lines 237-250): append the
positioned batch to the composite cloud and the flattened batch labels to the
composite label vector. -/
def gridStep (useColor : Bool) (xsize ysize : ℚ) (i : Nat) (st : VisuState)
    (b : Batch) : VisuState :=
  { cloud := st.cloud ++ positionedBatch useColor xsize ysize i b.scenes,
    labels := st.labels ++ b.labels.flatten }

/-- The grid main loop from batch index `i` on (`for i in range(NBATCH)`). -/
def gridRunFrom (useColor : Bool) (xsize ysize : ℚ) :
    Nat → VisuState → List Batch → VisuState
  | _, st, [] => st
  | i, st, b :: bs =>
    gridRunFrom useColor xsize ysize (i + 1) (gridStep useColor xsize ysize i st b) bs

/-- The whole grid-mode composite accumulation (visu.py lines 226-250). -/
def gridRun (useColor : Bool) (xsize ysize : ℚ) (batches : List Batch) : VisuState :=
  gridRunFrom useColor xsize ysize 0 (initVisu useColor) batches

theorem length_eq_six (l : List α) (h : l.length = 6) :
    ∃ a b c d e f, l = [a, b, c, d, e, f] := by
  rcases l with _ | ⟨a, l⟩; · simp at h
  rcases l with _ | ⟨b, l⟩; · simp at h
  rcases l with _ | ⟨c, l⟩; · simp at h
  rcases l with _ | ⟨d, l⟩; · simp at h
  rcases l with _ | ⟨e, l⟩; · simp at h
  rcases l with _ | ⟨f, l⟩; · simp at h
  rcases l with _ | ⟨g, l⟩
  · exact ⟨a, b, c, d, e, f, rfl⟩
  · simp at h

theorem length_eq_three (l : List α) (h : l.length = 3) :
    ∃ a b c, l = [a, b, c] := by
  rcases l with _ | ⟨a, l⟩; · simp at h
  rcases l with _ | ⟨b, l⟩; · simp at h
  rcases l with _ | ⟨c, l⟩; · simp at h
  rcases l with _ | ⟨d, l⟩
  · exact ⟨a, b, c, rfl⟩
  · simp at h

theorem foldl_zipWith_length (f : ℚ → ℚ → ℚ) (L : Nat) :
    ∀ (rs : List (List ℚ)) (acc : List ℚ), acc.length = L →
      (∀ r ∈ rs, r.length = L) → (rs.foldl (List.zipWith f) acc).length = L := by
  intro rs
  induction rs with
  | nil => intro acc ha _; simpa using ha
  | cons r rs ih =>
    intro acc ha hr
    have hl : (List.zipWith f acc r).length = L := by
      simp [List.length_zipWith, ha, hr r (by simp)]
    exact ih _ hl (fun w hw => hr w (List.mem_cons_of_mem _ hw))

theorem npMinAxis0_length (scene : List (List ℚ)) (L : Nat)
    (h : ∀ r ∈ scene, r.length = L) (hne : scene ≠ []) :
    (npMinAxis0 scene).length = L := by
  match scene, hne with
  | r :: rs, _ =>
    exact foldl_zipWith_length min L rs r (h r (by simp))
      (fun w hw => h w (List.mem_cons_of_mem _ hw))

theorem reposition_row_color (xsize ysize : ℚ) (i j : Nat) (M r : List ℚ)
    (hM : M.length = 6) (hr : r.length = 6) :
    vsub (vadd r (cellShift true ((j : ℚ) * xsize) ((i : ℚ) * ysize) 0))
      (vmul M (spatialMask true)) =
    [r.getD 0 0 + (j : ℚ) * xsize - M.getD 0 0,
     r.getD 1 0 + (i : ℚ) * ysize - M.getD 1 0,
     r.getD 2 0 - M.getD 2 0, r.getD 3 0, r.getD 4 0, r.getD 5 0] := by
  obtain ⟨a, b, c, d, e, f, rfl⟩ := length_eq_six r hr
  obtain ⟨m0, m1, m2, m3, m4, m5, rfl⟩ := length_eq_six M hM
  simp [vadd, vsub, vmul, cellShift, spatialMask]

theorem reposition_row_gray (xsize ysize : ℚ) (i j : Nat) (M r : List ℚ)
    (hM : M.length = 3) (hr : r.length = 3) :
    vsub (vadd r (cellShift false ((j : ℚ) * xsize) ((i : ℚ) * ysize) 0))
      (vmul M (spatialMask false)) =
    [r.getD 0 0 + (j : ℚ) * xsize - M.getD 0 0,
     r.getD 1 0 + (i : ℚ) * ysize - M.getD 1 0,
     r.getD 2 0 - M.getD 2 0] := by
  obtain ⟨a, b, c, rfl⟩ := length_eq_three r hr
  obtain ⟨m0, m1, m2, rfl⟩ := length_eq_three M hM
  simp [vadd, vsub, vmul, cellShift, spatialMask]

/-- C6: the cell spacing is computed from the probe batch's first scene only
(`data[0,:,0:3]`); repositioning translates a scene's spatial channels by the
cell origin `(j*xsize, i*ysize, 0)` minus the scene's own columnwise minimum
while leaving the color channels unchanged; and concretely a probe scene of
extent `10 x 10` gives `xsize = ysize = 25`, with the scene at `(i = 1, j = 1)`
based at the cell origin `(25, 25, 0)`. -/
theorem grid_probe_and_reposition :
    (∀ (s : List (List ℚ)) (rest : List (List (List ℚ))),
      probeSizes (s :: rest) = probeSizes [s]) ∧
    (∀ (xsize ysize : ℚ) (i j : Nat) (scene : List (List ℚ)),
      (∀ r ∈ scene, r.length = 6) →
      repositionScene true xsize ysize i j scene = scene.map (fun r =>
        [r.getD 0 0 + (j : ℚ) * xsize - (npMinAxis0 scene).getD 0 0,
         r.getD 1 0 + (i : ℚ) * ysize - (npMinAxis0 scene).getD 1 0,
         r.getD 2 0 - (npMinAxis0 scene).getD 2 0,
         r.getD 3 0, r.getD 4 0, r.getD 5 0])) ∧
    (∀ (xsize ysize : ℚ) (i j : Nat) (scene : List (List ℚ)),
      (∀ r ∈ scene, r.length = 3) →
      repositionScene false xsize ysize i j scene = scene.map (fun r =>
        [r.getD 0 0 + (j : ℚ) * xsize - (npMinAxis0 scene).getD 0 0,
         r.getD 1 0 + (i : ℚ) * ysize - (npMinAxis0 scene).getD 1 0,
         r.getD 2 0 - (npMinAxis0 scene).getD 2 0])) ∧
    probeSizes [[[0, 0, 0], [10, 10, 0]]] = (25, 25) ∧
    repositionScene false 25 25 1 1 [[0, 0, 0], [10, 10, 0]] =
      [[25, 25, 0], [35, 35, 0]] := by
  refine ⟨?_, ?_, ?_, ?_, ?_⟩
  · intro s rest
    rfl
  · intro xsize ysize i j scene hlen
    cases scene with
    | nil => rfl
    | cons r rs =>
      have hM : (npMinAxis0 (r :: rs)).length = 6 :=
        npMinAxis0_length _ 6 hlen (by simp)
      refine List.map_congr_left ?_
      intro w hw
      exact reposition_row_color xsize ysize i j _ w hM (hlen w hw)
  · intro xsize ysize i j scene hlen
    cases scene with
    | nil => rfl
    | cons r rs =>
      have hM : (npMinAxis0 (r :: rs)).length = 3 :=
        npMinAxis0_length _ 3 hlen (by simp)
      refine List.map_congr_left ?_
      intro w hw
      exact reposition_row_gray xsize ysize i j _ w hM (hlen w hw)
  · norm_num [probeSizes, npMinAxis0, npMaxAxis0, GRID_MARGIN, min_def, max_def]
  · norm_num [repositionScene, npMinAxis0, vadd, vsub, vmul, cellShift,
      spatialMask, min_def]

/-- Witness for C6's repositioning formula at a concrete color scene. -/
theorem grid_probe_and_reposition_witness :
    repositionScene true 25 25 1 1 [[1, 2, 3, 4, 5, 6]] = [[25, 25, 0, 4, 5, 6]] := by
  have h := grid_probe_and_reposition.2.1 25 25 1 1 [[1, 2, 3, 4, 5, 6]] (by decide)
  rw [h]
  norm_num [npMinAxis0]

theorem foldl_zipWith_getD (f : ℚ → ℚ → ℚ) (L k : Nat) (hk : k < L) :
    ∀ (rs : List (List ℚ)) (acc : List ℚ), acc.length = L →
      (∀ r ∈ rs, r.length = L) →
      (rs.foldl (List.zipWith f) acc).getD k 0 =
        (rs.map (fun r => r.getD k 0)).foldl f (acc.getD k 0) := by
  intro rs
  induction rs with
  | nil => intro acc _ _; rfl
  | cons r rs ih =>
    intro acc ha hr
    have hrL : r.length = L := hr r (by simp)
    have hzl : (List.zipWith f acc r).length = L := by
      simp [List.length_zipWith, ha, hrL]
    have hz : (List.zipWith f acc r).getD k 0 = f (acc.getD k 0) (r.getD k 0) :=
      getD_zipWith f acc r k 0 0 0 (by omega) (by omega)
    calc ((r :: rs).foldl (List.zipWith f) acc).getD k 0
        = (rs.foldl (List.zipWith f) (List.zipWith f acc r)).getD k 0 := rfl
      _ = (rs.map (fun w => w.getD k 0)).foldl f ((List.zipWith f acc r).getD k 0) :=
          ih _ hzl (fun w hw => hr w (List.mem_cons_of_mem _ hw))
      _ = ((r :: rs).map (fun w => w.getD k 0)).foldl f (acc.getD k 0) := by
          rw [hz]; rfl

theorem npMinAxis0_getD (scene : List (List ℚ)) (L k : Nat) (hk : k < L)
    (h : ∀ r ∈ scene, r.length = L) (hne : scene ≠ []) :
    (npMinAxis0 scene).getD k 0 = listMin (scene.map (fun r => r.getD k 0)) := by
  match scene, hne with
  | r :: rs, _ =>
    have h1 := foldl_zipWith_getD min L k hk rs r (h r (by simp))
      (fun w hw => h w (List.mem_cons_of_mem _ hw))
    simpa [npMinAxis0, listMin] using h1

theorem npMaxAxis0_getD (scene : List (List ℚ)) (L k : Nat) (hk : k < L)
    (h : ∀ r ∈ scene, r.length = L) (hne : scene ≠ []) :
    (npMaxAxis0 scene).getD k 0 = listMax (scene.map (fun r => r.getD k 0)) := by
  match scene, hne with
  | r :: rs, _ =>
    have h1 := foldl_zipWith_getD max L k hk rs r (h r (by simp))
      (fun w hw => h w (List.mem_cons_of_mem _ hw))
    simpa [npMaxAxis0, listMax] using h1

theorem foldl_min_map_add (xs : List ℚ) (c : ℚ) :
    ∀ a : ℚ, (xs.map (fun v => v + c)).foldl min (a + c) = xs.foldl min a + c := by
  induction xs with
  | nil => intro a; rfl
  | cons x xs ih =>
    intro a
    simp only [List.map_cons, List.foldl_cons]
    rw [min_add_add_right]
    exact ih (min a x)

theorem foldl_max_map_add (xs : List ℚ) (c : ℚ) :
    ∀ a : ℚ, (xs.map (fun v => v + c)).foldl max (a + c) = xs.foldl max a + c := by
  induction xs with
  | nil => intro a; rfl
  | cons x xs ih =>
    intro a
    simp only [List.map_cons, List.foldl_cons]
    rw [max_add_add_right]
    exact ih (max a x)

theorem listMin_map_add (xs : List ℚ) (c : ℚ) (h : xs ≠ []) :
    listMin (xs.map (fun v => v + c)) = listMin xs + c := by
  match xs, h with
  | x :: xs, _ =>
    show (xs.map (fun v => v + c)).foldl min (x + c) = xs.foldl min x + c
    exact foldl_min_map_add xs c x

theorem listMax_map_add (xs : List ℚ) (c : ℚ) (h : xs ≠ []) :
    listMax (xs.map (fun v => v + c)) = listMax xs + c := by
  match xs, h with
  | x :: xs, _ =>
    show (xs.map (fun v => v + c)).foldl max (x + c) = xs.foldl max x + c
    exact foldl_max_map_add xs c x

theorem foldl_min_le_init (xs : List ℚ) : ∀ a : ℚ, xs.foldl min a ≤ a := by
  induction xs with
  | nil => intro a; exact le_refl a
  | cons x xs ih =>
    intro a
    exact le_trans (ih (min a x)) (min_le_left a x)

theorem init_le_foldl_max (xs : List ℚ) : ∀ a : ℚ, a ≤ xs.foldl max a := by
  induction xs with
  | nil => intro a; exact le_refl a
  | cons x xs ih =>
    intro a
    exact le_trans (le_max_left a x) (ih (max a x))

theorem listMin_le_listMax (xs : List ℚ) (h : xs ≠ []) :
    listMin xs ≤ listMax xs := by
  match xs, h with
  | x :: xs, _ =>
    exact le_trans (foldl_min_le_init xs x) (init_le_foldl_max xs x)

/-- Lower bound of a point cloud's axis-aligned bounding box in axis `k`. -/
def colMinD (k : Nat) (scene : List (List ℚ)) : ℚ := (npMinAxis0 scene).getD k 0

/-- Upper bound of a point cloud's axis-aligned bounding box in axis `k`. -/
def colMaxD (k : Nat) (scene : List (List ℚ)) : ℚ := (npMaxAxis0 scene).getD k 0

/-- Whether the axis-aligned bounding boxes, over the first two axes, of two
point clouds intersect. -/
def bboxOverlapB (s t : List (List ℚ)) : Bool :=
  decide (max (colMinD 0 s) (colMinD 0 t) ≤ min (colMaxD 0 s) (colMaxD 0 t)) &&
  decide (max (colMinD 1 s) (colMinD 1 t) ≤ min (colMaxD 1 s) (colMaxD 1 t))

theorem colMin_le_colMax (k L : Nat) (hk : k < L) (scene : List (List ℚ))
    (hne : scene ≠ []) (hlen : ∀ r ∈ scene, r.length = L) :
    colMinD k scene ≤ colMaxD k scene := by
  rw [colMinD, npMinAxis0_getD scene L k hk hlen hne,
    colMaxD, npMaxAxis0_getD scene L k hk hlen hne]
  exact listMin_le_listMax _ (fun hc => hne (List.map_eq_nil_iff.mp hc))

theorem reposition_col01 (useColor : Bool) (xsize ysize : ℚ) (i j : Nat)
    (k : Nat) (hk : k < 2) (scene : List (List ℚ))
    (hlen : ∀ r ∈ scene, r.length = (if useColor then 6 else 3)) :
    (repositionScene useColor xsize ysize i j scene).map (fun r => r.getD k 0) =
      (scene.map (fun r => r.getD k 0)).map (fun v => v +
        ((if k = 0 then (j : ℚ) * xsize else (i : ℚ) * ysize) -
          (npMinAxis0 scene).getD k 0)) := by
  cases scene with
  | nil => rfl
  | cons r rs =>
    rw [repositionScene, List.map_map, List.map_map]
    refine List.map_congr_left ?_
    intro w hw
    simp only [Function.comp]
    cases useColor with
    | true =>
      have hM : (npMinAxis0 (r :: rs)).length = 6 :=
        npMinAxis0_length _ 6 hlen (by simp)
      rw [reposition_row_color xsize ysize i j _ w hM (by simpa using hlen w hw)]
      interval_cases k
      · simp [add_sub_assoc]
      · simp [add_sub_assoc]
    | false =>
      have hM : (npMinAxis0 (r :: rs)).length = 3 :=
        npMinAxis0_length _ 3 hlen (by simp)
      rw [reposition_row_gray xsize ysize i j _ w hM (by simpa using hlen w hw)]
      interval_cases k
      · simp [add_sub_assoc]
      · simp [add_sub_assoc]

theorem reposition_bbox (useColor : Bool) (xsize ysize : ℚ) (i j : Nat)
    (k : Nat) (hk : k < 2) (scene : List (List ℚ)) (hne : scene ≠ [])
    (hlen : ∀ r ∈ scene, r.length = (if useColor then 6 else 3)) :
    colMinD k (repositionScene useColor xsize ysize i j scene) =
      (if k = 0 then (j : ℚ) * xsize else (i : ℚ) * ysize) ∧
    colMaxD k (repositionScene useColor xsize ysize i j scene) =
      (if k = 0 then (j : ℚ) * xsize else (i : ℚ) * ysize) +
        (colMaxD k scene - colMinD k scene) := by
  have hkL : k < (if useColor then 6 else 3) := by
    cases useColor <;> simp <;> omega
  have hMlen : (npMinAxis0 scene).length = (if useColor then 6 else 3) :=
    npMinAxis0_length scene _ hlen hne
  have hshift : (cellShift useColor ((j : ℚ) * xsize) ((i : ℚ) * ysize) 0).length =
      (if useColor then 6 else 3) := by
    cases useColor <;> simp [cellShift]
  have hmask : (spatialMask useColor).length = (if useColor then 6 else 3) := by
    cases useColor <;> simp [spatialMask]
  have hreplen : ∀ w ∈ repositionScene useColor xsize ysize i j scene,
      w.length = (if useColor then 6 else 3) := by
    intro w hw
    rcases List.mem_map.mp hw with ⟨r, hr, rfl⟩
    simp [vsub, vadd, vmul, List.length_zipWith, hlen r hr, hMlen, hshift, hmask]
  have hrne : repositionScene useColor xsize ysize i j scene ≠ [] := by
    intro hc
    exact hne (List.map_eq_nil_iff.mp hc)
  have hsne : scene.map (fun r => r.getD k 0) ≠ [] :=
    fun hc => hne (List.map_eq_nil_iff.mp hc)
  constructor
  · rw [colMinD, npMinAxis0_getD _ _ k hkL hreplen hrne,
      reposition_col01 useColor xsize ysize i j k hk scene hlen,
      listMin_map_add _ _ hsne, ← npMinAxis0_getD scene _ k hkL hlen hne]
    ring
  · rw [colMaxD, npMaxAxis0_getD _ _ k hkL hreplen hrne,
      reposition_col01 useColor xsize ysize i j k hk scene hlen,
      listMax_map_add _ _ hsne, ← npMaxAxis0_getD scene _ k hkL hlen hne,
      colMaxD, colMinD]
    ring

theorem cells_disjoint_axis (sz w1 w2 : ℚ) (n1 n2 : Nat) (hw1 : 0 ≤ w1)
    (h1 : w1 < sz) (h2 : w2 < sz) (hne : n1 ≠ n2) :
    ¬ (max ((n1 : ℚ) * sz) ((n2 : ℚ) * sz) ≤
        min ((n1 : ℚ) * sz + w1) ((n2 : ℚ) * sz + w2)) := by
  intro hP
  have hszpos : 0 < sz := lt_of_le_of_lt hw1 h1
  rcases Nat.lt_or_ge n1 n2 with hlt | hge
  · have hc : ((n1 : ℚ) + 1) ≤ (n2 : ℚ) := by exact_mod_cast hlt
    have hm : ((n1 : ℚ) + 1) * sz ≤ (n2 : ℚ) * sz :=
      mul_le_mul_of_nonneg_right hc (le_of_lt hszpos)
    rw [add_mul, one_mul] at hm
    have hle : (n2 : ℚ) * sz ≤ (n1 : ℚ) * sz + w1 :=
      le_trans (le_max_right _ _) (le_trans hP (min_le_left _ _))
    linarith
  · have hlt2 : n2 < n1 := Nat.lt_of_le_of_ne hge (fun hh => hne hh.symm)
    have hc : ((n2 : ℚ) + 1) ≤ (n1 : ℚ) := by exact_mod_cast hlt2
    have hm : ((n2 : ℚ) + 1) * sz ≤ (n1 : ℚ) * sz :=
      mul_le_mul_of_nonneg_right hc (le_of_lt hszpos)
    rw [add_mul, one_mul] at hm
    have hle : (n1 : ℚ) * sz ≤ (n2 : ℚ) * sz + w2 :=
      le_trans (le_max_left _ _) (le_trans hP (min_le_right _ _))
    linarith

/-- C7 counterexample: with the probe scene of extent `10 x 10` the cell sizes
are `25 x 25`, but a later batch may return a scene of x-extent `30 > 25`;
placed at cell `(0, 0)` it spans `x ∈ [0, 30]`, which overlaps the scene
placed at cell `(0, 1)` spanning `x ∈ [25, 26]` (both scenes repositioned by
the code's formula). -/
theorem grid_no_overlap_cex :
    probeSizes [[[0, 0, 0], [10, 10, 0]]] = (25, 25) ∧
    ((0 : Nat), (0 : Nat)) ≠ ((0 : Nat), (1 : Nat)) ∧
    repositionScene false 25 25 0 0 [[0, 0, 0], [30, 0, 0]] =
      [[0, 0, 0], [30, 0, 0]] ∧
    repositionScene false 25 25 0 1 [[0, 0, 0], [1, 1, 0]] =
      [[25, 0, 0], [26, 1, 0]] ∧
    bboxOverlapB [[0, 0, 0], [30, 0, 0]] [[25, 0, 0], [26, 1, 0]] = true := by
  refine ⟨?_, by decide, ?_, ?_, ?_⟩
  · norm_num [probeSizes, npMinAxis0, npMaxAxis0, GRID_MARGIN, min_def, max_def]
  · norm_num [repositionScene, npMinAxis0, vadd, vsub, vmul, cellShift,
      spatialMask, min_def]
  · norm_num [repositionScene, npMinAxis0, vadd, vsub, vmul, cellShift,
      spatialMask, min_def]
  · simp only [bboxOverlapB, colMinD, colMaxD, npMinAxis0, npMaxAxis0,
      Bool.and_eq_true, decide_eq_true_eq]
    norm_num [min_def, max_def]

/-- C7 (amended): distinct grid cells receive disjoint repositioned scenes
PROVIDED every placed scene's extent along x is smaller than `xsize` and
along y smaller than `ysize` (as holds e.g. when all scenes have extents at
most the probe scene's); the claim's unconditional version fails because the
cell sizes are measured from the probe batch's first scene only, which does
not bound the extents of later sampled scenes. -/
theorem grid_no_overlap_amended (useColor : Bool) (xsize ysize : ℚ)
    (i1 j1 i2 j2 : Nat) (s t : List (List ℚ)) (hs : s ≠ []) (ht : t ≠ [])
    (hsL : ∀ r ∈ s, r.length = (if useColor then 6 else 3))
    (htL : ∀ r ∈ t, r.length = (if useColor then 6 else 3))
    (hsx : colMaxD 0 s - colMinD 0 s < xsize)
    (htx : colMaxD 0 t - colMinD 0 t < xsize)
    (hsy : colMaxD 1 s - colMinD 1 s < ysize)
    (hty : colMaxD 1 t - colMinD 1 t < ysize)
    (hne : (i1, j1) ≠ (i2, j2)) :
    bboxOverlapB (repositionScene useColor xsize ysize i1 j1 s)
      (repositionScene useColor xsize ysize i2 j2 t) = false := by
  have hbs0 := reposition_bbox useColor xsize ysize i1 j1 0 (by omega) s hs hsL
  have hbt0 := reposition_bbox useColor xsize ysize i2 j2 0 (by omega) t ht htL
  have hbs1 := reposition_bbox useColor xsize ysize i1 j1 1 (by omega) s hs hsL
  have hbt1 := reposition_bbox useColor xsize ysize i2 j2 1 (by omega) t ht htL
  have hk0 : (0 : Nat) < (if useColor then 6 else 3) := by cases useColor <;> simp
  have hk1 : (1 : Nat) < (if useColor then 6 else 3) := by
    cases useColor <;> norm_num
  have hws0 : 0 ≤ colMaxD 0 s - colMinD 0 s := by
    have := colMin_le_colMax 0 _ hk0 s hs hsL
    linarith
  have hwt0 : 0 ≤ colMaxD 0 t - colMinD 0 t := by
    have := colMin_le_colMax 0 _ hk0 t ht htL
    linarith
  have hws1 : 0 ≤ colMaxD 1 s - colMinD 1 s := by
    have := colMin_le_colMax 1 _ hk1 s hs hsL
    linarith
  have hwt1 : 0 ≤ colMaxD 1 t - colMinD 1 t := by
    have := colMin_le_colMax 1 _ hk1 t ht htL
    linarith
  simp at hbs0 hbt0 hbs1 hbt1
  by_cases hj : j1 = j2
  · have hi : i1 ≠ i2 := by
      intro hc
      exact hne (by rw [hc, hj])
    have hnp1 := cells_disjoint_axis ysize _ _ i1 i2 hws1 hsy hty hi
    rw [← hbs1.2, ← hbt1.2, ← hbs1.1, ← hbt1.1] at hnp1
    simp only [bboxOverlapB, decide_eq_false hnp1, Bool.and_false]
  · have hnp0 := cells_disjoint_axis xsize _ _ j1 j2 hws0 hsx htx hj
    rw [← hbs0.2, ← hbt0.2, ← hbs0.1, ← hbt0.1] at hnp0
    simp only [bboxOverlapB, decide_eq_false hnp0, Bool.false_and]

/-- Witness for C7's amended statement: two `10 x 10` scenes placed at cells
`(0, 0)` and `(1, 1)` with cell sizes `25 x 25` have disjoint boxes. -/
theorem grid_no_overlap_amended_witness :
    bboxOverlapB (repositionScene false 25 25 0 0 [[0, 0, 0], [10, 10, 0]])
      (repositionScene false 25 25 1 1 [[0, 0, 0], [10, 10, 0]]) = false :=
  grid_no_overlap_amended false 25 25 0 0 1 1
    [[0, 0, 0], [10, 10, 0]] [[0, 0, 0], [10, 10, 0]]
    (by decide) (by decide) (by decide) (by decide)
    (by norm_num [colMaxD, colMinD, npMinAxis0, npMaxAxis0, min_def, max_def])
    (by norm_num [colMaxD, colMinD, npMinAxis0, npMaxAxis0, min_def, max_def])
    (by norm_num [colMaxD, colMinD, npMinAxis0, npMaxAxis0, min_def, max_def])
    (by norm_num [colMaxD, colMinD, npMinAxis0, npMaxAxis0, min_def, max_def])
    (by decide)

theorem sum_range_getD_length (l : List (List α)) :
    ((List.range l.length).map (fun j => (l.getD j []).length)).sum =
      (l.map List.length).sum := by
  induction l with
  | nil => rfl
  | cons x xs ih =>
    rw [List.length_cons, List.range_succ_eq_map]
    rw [List.map_cons, List.map_map, List.sum_cons]
    have hmap : ((List.range xs.length).map
        ((fun j => ((x :: xs).getD j []).length) ∘ Nat.succ)) =
        (List.range xs.length).map (fun j => (xs.getD j []).length) :=
      List.map_congr_left (fun a _ => rfl)
    rw [hmap, ih, List.map_cons, List.sum_cons]
    rfl

theorem positionedBatch_length_eq (useColor : Bool) (xsize ysize : ℚ) (i : Nat)
    (scenes : List (List (List ℚ))) :
    (positionedBatch useColor xsize ysize i scenes).length =
      (scenes.map List.length).sum := by
  rw [positionedBatch, List.length_flatten, List.map_map]
  have hmap : ((List.range scenes.length).map
      (List.length ∘ fun j => repositionScene useColor xsize ysize i j (scenes.getD j []))) =
      (List.range scenes.length).map (fun j => (scenes.getD j []).length) :=
    List.map_congr_left (fun a _ => by simp [repositionScene])
  rw [hmap, sum_range_getD_length]

theorem gridStep_lengths (useColor : Bool) (xsize ysize : ℚ) (i : Nat)
    (st : VisuState) (b : Batch) :
    (gridStep useColor xsize ysize i st b).cloud.length =
      st.cloud.length + (b.scenes.map List.length).sum ∧
    (gridStep useColor xsize ysize i st b).labels.length =
      st.labels.length + (b.labels.map List.length).sum := by
  constructor
  · simp [gridStep, positionedBatch_length_eq]
  · simp [gridStep, List.length_flatten]

theorem gridRunFrom_lengths (useColor : Bool) (xsize ysize : ℚ) :
    ∀ (bs : List Batch) (i : Nat) (st : VisuState),
      (gridRunFrom useColor xsize ysize i st bs).cloud.length =
        st.cloud.length + (bs.map (fun b => (b.scenes.map List.length).sum)).sum ∧
      (gridRunFrom useColor xsize ysize i st bs).labels.length =
        st.labels.length + (bs.map (fun b => (b.labels.map List.length).sum)).sum := by
  intro bs
  induction bs with
  | nil =>
    intro i st
    exact ⟨by simp [gridRunFrom], by simp [gridRunFrom]⟩
  | cons b bs ih =>
    intro i st
    have hstep := gridStep_lengths useColor xsize ysize i st b
    have hrec := ih (i + 1) (gridStep useColor xsize ysize i st b)
    constructor
    · rw [show gridRunFrom useColor xsize ysize i st (b :: bs) =
          gridRunFrom useColor xsize ysize (i + 1)
            (gridStep useColor xsize ysize i st b) bs from rfl]
      rw [hrec.1, hstep.1, List.map_cons, List.sum_cons]
      ring
    · rw [show gridRunFrom useColor xsize ysize i st (b :: bs) =
          gridRunFrom useColor xsize ysize (i + 1)
            (gridStep useColor xsize ysize i st b) bs from rfl]
      rw [hrec.2, hstep.2, List.map_cons, List.sum_cons]
      ring

/-- C8: in grid mode, after each of the `B` main-loop iterations the composite
cloud has exactly as many points as the composite label vector has entries,
provided each batch carries as many labels per scene as the scene has
points. -/
theorem composite_parallel_invariant (useColor : Bool) (xsize ysize : ℚ)
    (batches : List Batch)
    (hb : ∀ b ∈ batches, b.scenes.length = b.labels.length ∧
      ∀ k, k < b.scenes.length →
        (b.scenes.getD k []).length = (b.labels.getD k []).length)
    (n : Nat) :
    (gridRun useColor xsize ysize (batches.take n)).cloud.length =
      (gridRun useColor xsize ysize (batches.take n)).labels.length := by
  have hlen := gridRunFrom_lengths useColor xsize ysize (batches.take n) 0
    (initVisu useColor)
  rw [gridRun, hlen.1, hlen.2]
  have hinit : (initVisu useColor).cloud.length = (initVisu useColor).labels.length := by
    cases useColor <;> rfl
  rw [hinit]
  congr 1
  refine congrArg List.sum (List.map_congr_left ?_)
  intro b hbmem
  have hb' := hb b (List.take_subset n batches hbmem)
  refine congrArg List.sum ?_
  apply List.ext_getElem
  · simp [hb'.1]
  · intro k hk1 hk2
    simp only [List.getElem_map]
    have hks : k < b.scenes.length := by simpa using hk1
    have hkl : k < b.labels.length := by simpa using hk2
    have heq := hb'.2 k hks
    rw [List.getD_eq_getElem _ _ hks, List.getD_eq_getElem _ _ hkl] at heq
    exact heq

/-- Witness for C8 at a concrete run: one batch of one one-point scene with
one label. -/
theorem composite_parallel_invariant_witness :
    (gridRun false 25 25 (([⟨[[[0, 0, 0]]], [[7]]⟩] : List Batch).take 1)).cloud.length =
      (gridRun false 25 25 (([⟨[[[0, 0, 0]]], [[7]]⟩] : List Batch).take 1)).labels.length :=
  composite_parallel_invariant false 25 25 [⟨[[[0, 0, 0]]], [[7]]⟩] (by decide) 1

/-- The repositioned points contributed by the batches from loop index `i`
on, in composite order. -/
def gridContributionsFrom (useColor : Bool) (xsize ysize : ℚ) :
    Nat → List Batch → List (List ℚ)
  | _, [] => []
  | i, b :: bs =>
    positionedBatch useColor xsize ysize i b.scenes ++
      gridContributionsFrom useColor xsize ysize (i + 1) bs

theorem gridRunFrom_eq (useColor : Bool) (xsize ysize : ℚ) :
    ∀ (bs : List Batch) (i : Nat) (st : VisuState),
      (gridRunFrom useColor xsize ysize i st bs).cloud =
        st.cloud ++ gridContributionsFrom useColor xsize ysize i bs ∧
      (gridRunFrom useColor xsize ysize i st bs).labels =
        st.labels ++ (bs.map (fun b => b.labels.flatten)).flatten := by
  intro bs
  induction bs with
  | nil =>
    intro i st
    exact ⟨by simp [gridRunFrom, gridContributionsFrom], by simp [gridRunFrom]⟩
  | cons b bs ih =>
    intro i st
    have hrec := ih (i + 1) (gridStep useColor xsize ysize i st b)
    constructor
    · rw [show gridRunFrom useColor xsize ysize i st (b :: bs) =
          gridRunFrom useColor xsize ysize (i + 1)
            (gridStep useColor xsize ysize i st b) bs from rfl]
      rw [hrec.1]
      simp [gridStep, gridContributionsFrom, List.append_assoc]
    · rw [show gridRunFrom useColor xsize ysize i st (b :: bs) =
          gridRunFrom useColor xsize ysize (i + 1)
            (gridStep useColor xsize ysize i st b) bs from rfl]
      rw [hrec.2]
      simp [gridStep, List.append_assoc]

/-- C10 (implicit): the composite cloud and label vector are initialized with
one all-zero row (six zero channels when color is used) and one zero label
before any batch is processed, so the exported composite is exactly that
origin row followed by the batches' contributions: it contains one point and
one label more than the batches contribute, and the extra origin point comes
from the initialization, not from any sampled scene. -/
theorem composite_extra_origin (useColor : Bool) (xsize ysize : ℚ)
    (batches : List Batch) :
    (gridRun useColor xsize ysize batches).cloud =
      zeroRow useColor :: gridContributionsFrom useColor xsize ysize 0 batches ∧
    (gridRun useColor xsize ysize batches).labels =
      0 :: (batches.map (fun b => b.labels.flatten)).flatten ∧
    (gridRun useColor xsize ysize batches).cloud.length =
      1 + (batches.map (fun b => (b.scenes.map List.length).sum)).sum ∧
    (gridRun useColor xsize ysize batches).labels.length =
      1 + (batches.map (fun b => (b.labels.map List.length).sum)).sum := by
  have heq := gridRunFrom_eq useColor xsize ysize batches 0 (initVisu useColor)
  have hlen := gridRunFrom_lengths useColor xsize ysize batches 0 (initVisu useColor)
  refine ⟨?_, ?_, ?_, ?_⟩
  · rw [gridRun, heq.1]
    rfl
  · rw [gridRun, heq.2]
    rfl
  · rw [gridRun, hlen.1]
    simp [initVisu]
  · rw [gridRun, hlen.2]
    simp [initVisu]

/-- One fallback-mode export call: the output filename key `(colorTag, j)`
standing for `{SET}_{colorTag}_{j}.txt` (visu.py lines 256-259 — the name
depends on the scene-within-batch index `j` only, not on the batch index),
together with the scene written. -/
def fallbackBatchExports (b : Batch) : List ((String × Nat) × List (List ℚ)) :=
  ((List.range b.scenes.length).map (fun j =>
    [(("trueColors", j), b.scenes.getD j []),
     (("labelColors", j), b.scenes.getD j [])])).flatten

/-- All export calls of a fallback-mode run (the `else` branch of the main
loop at visu.py lines 252-259, one pass per batch). -/
def fallbackExports (batches : List Batch) : List ((String × Nat) × List (List ℚ)) :=
  (batches.map fallbackBatchExports).flatten

/-- C9 (code bug): with `B = 2` batches of `batchSize = 1` scene each,
fallback mode performs `2 * (batchSize * B) = 4` export writes — each scene of
each batch written individually — but the filenames are indexed by the
scene-within-batch index only, so only `2 * batchSize = 2` distinct filenames
remain and the second batch's files overwrite the first's: the run does not
leave `batchSize * B` independent per-scene exports. -/
theorem fallback_export_overwrites :
    fallbackExports [⟨[[[0, 0, 0]]], [[0]]⟩, ⟨[[[7, 7, 7]]], [[1]]⟩] =
      [(("trueColors", 0), [[0, 0, 0]]), (("labelColors", 0), [[0, 0, 0]]),
       (("trueColors", 0), [[7, 7, 7]]), (("labelColors", 0), [[7, 7, 7]])] ∧
    (fallbackExports [⟨[[[0, 0, 0]]], [[0]]⟩, ⟨[[[7, 7, 7]]], [[1]]⟩]).length = 4 ∧
    ((fallbackExports [⟨[[[0, 0, 0]]], [[0]]⟩, ⟨[[[7, 7, 7]]], [[1]]⟩]).map
      Prod.fst).dedup = [("trueColors", 0), ("labelColors", 0)] ∧
    ([[(0 : ℚ), 0, 0]] : List (List ℚ)) ≠ [[(7 : ℚ), 7, 7]] := by
  refine ⟨?_, ?_, ?_, ?_⟩ <;> decide

end Visu
